import Mathlib

/-!
Shallow embedding of the priority-driven entity/relationship merge engine of
the lightrag-knowledge-classficision repository
(`src/priority_entity_manager.py` and `src/custom_operate.py`).

Python dicts are modelled as insertion-ordered association lists, Python
floats as rationals, and Python's stable `sorted` as a stable insertion
sort.  The asynchronous storage calls of `_process_merged_data` are modelled
by recording, for each invocation, the pair of lists handed over
(`merge_handoffs`).
-/

namespace KC

/-! ## PriorityEntityManager (src/priority_entity_manager.py) -/

/-- `PriorityEntityManager.priority_config`: tier 1 = 设备/故障/时间,
tier 2 = 原因/措施, tier 3 = 人员, tier 4 = 区域. -/
def priority_config : List (Nat × List String) :=
  [(1, ["设备", "故障", "时间"]), (2, ["原因", "措施"]), (3, ["人员"]), (4, ["区域"])]

/-- The lookup loop of `get_entity_priority`: first tier whose type list
contains the entity type; 999 when none does. -/
def lookup_priority : List (Nat × List String) → String → Nat
  | [], _ => 999
  | p :: rest, t => if p.2.contains t then p.1 else lookup_priority rest t

/-- `PriorityEntityManager.get_entity_priority`. -/
def get_entity_priority (entity_type : String) : Nat :=
  lookup_priority priority_config entity_type

/-- `PriorityEntityManager.entity_weights`. -/
def entity_weights : List (String × ℚ) :=
  [("设备", 10), ("故障", 9), ("时间", 8), ("原因", 7), ("措施", 6), ("人员", 5), ("区域", 4)]

/-- `PriorityEntityManager.get_entity_weight`: configured weight, default 1.0. -/
def get_entity_weight (entity_type : String) : ℚ :=
  match entity_weights.find? (fun p => p.1 == entity_type) with
  | some p => p.2
  | none => 1

/-- `PriorityEntityManager.should_create_relationship`:
`abs(source_priority - target_priority) <= 1`. -/
def should_create_relationship (source_type target_type : String) : Bool :=
  decide (((get_entity_priority source_type : Int) -
    (get_entity_priority target_type : Int)).natAbs ≤ 1)

/-- The arithmetic core of `calculate_relationship_weight`:
`base_weight * ((source_weight + target_weight) / 2) / 10.0`. -/
def relationship_weight (source_weight target_weight base_weight : ℚ) : ℚ :=
  base_weight * ((source_weight + target_weight) / 2) / 10

/-- `PriorityEntityManager.calculate_relationship_weight`. -/
def calculate_relationship_weight (source_type target_type : String)
    (base_weight : ℚ) : ℚ :=
  relationship_weight (get_entity_weight source_type) (get_entity_weight target_type)
    base_weight

/-! ## Data model: the mention dicts flowing through the pipeline -/

/-- An entity-mention dict.  `priority` and `weight` are written by the
normalization step of `extract_entities_with_priority`. -/
structure EntityMention where
  entity_name : String
  entity_type : String
  description : String
  source_id : String
  file_path : String
  priority : Nat
  weight : ℚ
deriving DecidableEq, Repr

/-- A relationship-mention dict.  `weight` is overwritten and
`priority_score` is written by the normalization step. -/
structure RelMention where
  src_id : String
  tgt_id : String
  weight : ℚ
  description : String
  keywords : String
  source_id : String
  file_path : String
  priority_score : ℚ
deriving DecidableEq, Repr

/-- One chunk's extraction result: the pair of dicts
(entity name → mentions, ordered name pair → mentions). -/
structure ChunkResult where
  nodes : List (String × List EntityMention)
  edges : List ((String × String) × List RelMention)
deriving DecidableEq, Repr

/-! ## Normalization (post-processing loop of `extract_entities_with_priority`,
src/custom_operate.py lines 44-78) -/

/-- The per-entity weighting loop: attach `priority` and `weight` derived
from the entity type to every mention (`entity['priority'] = ...`,
`entity['weight'] = ...`). -/
def weight_nodes (nodes : List (String × List EntityMention)) :
    List (String × List EntityMention) :=
  nodes.map (fun p => (p.1, p.2.map (fun e =>
    { e with
      priority := get_entity_priority e.entity_type,
      weight := get_entity_weight e.entity_type })))

/-- `_get_entity_type`: the first mention recorded under the name, if any and
nonempty, gives the type; otherwise the empty string. -/
def _get_entity_type (entity_name : String)
    (nodes_dict : List (String × List EntityMention)) : String :=
  match nodes_dict.find? (fun p => p.1 == entity_name) with
  | some (_, e :: _) => e.entity_type
  | _ => ""

/-- The per-edge adjustment of an admitted relationship mention:
`edge['weight'] = calculate_relationship_weight(...)` and
`edge['priority_score'] = (source_weight + target_weight) / 2`. -/
def adjust_edge (source_type target_type : String) (e : RelMention) : RelMention :=
  { e with
    weight := calculate_relationship_weight source_type target_type e.weight,
    priority_score :=
      (get_entity_weight source_type + get_entity_weight target_type) / 2 }

/-- One chunk's pass of the post-processing loop: weight the nodes, then keep
exactly the edge entries whose resolved endpoint types pass
`should_create_relationship`, adjusting their mentions. -/
def normalize_chunk (c : ChunkResult) : ChunkResult :=
  { nodes := weight_nodes c.nodes,
    edges := c.edges.filterMap (fun p =>
      if should_create_relationship
          (_get_entity_type p.1.1 (weight_nodes c.nodes))
          (_get_entity_type p.1.2 (weight_nodes c.nodes)) then
        some (p.1, p.2.map (adjust_edge
          (_get_entity_type p.1.1 (weight_nodes c.nodes))
          (_get_entity_type p.1.2 (weight_nodes c.nodes))))
      else none) }

/-! ## Python's stable sort, modelled as a stable insertion sort -/

/-- Insert `x` before the first element `y` with `le x y`; with
`le x y = (key x ≤ key y)` this reproduces Python's stable ascending sort. -/
def insertSorted (le : α → α → Bool) (x : α) : List α → List α
  | [] => [x]
  | y :: ys => if le x y then x :: y :: ys else y :: insertSorted le x ys

/-- `sorted(xs, key=...)` as a stable insertion sort. -/
def pySorted (le : α → α → Bool) (xs : List α) : List α :=
  xs.foldr (insertSorted le) []

/-- Python's `min(xs, key=f)`: first element attaining the minimal key. -/
def pyMinBy (f : α → β) [LinearOrder β] (e : α) (es : List α) : α :=
  es.foldl (fun b x => if f x < f b then x else b) e

/-- Python's `max(xs, key=f)`: first element attaining the maximal key. -/
def pyMaxBy (f : α → β) [LinearOrder β] (e : α) (es : List α) : α :=
  es.foldl (fun b x => if f b < f x then x else b) e

/-! ## Aggregation and merge
(`merge_nodes_and_edges_with_priority`, src/custom_operate.py lines 90-146) -/

/-- Sort key of a chunk's entity mentions:
`key=lambda x: (x.get('priority', 999), -x.get('weight', 0))`. -/
def entity_le (a b : EntityMention) : Bool :=
  decide (a.priority < b.priority ∨ (a.priority = b.priority ∧ b.weight ≤ a.weight))

/-- Sort key of a chunk's relationship mentions:
`key=lambda x: -x.get('priority_score', 0)`. -/
def edge_le (a b : RelMention) : Bool :=
  decide (b.priority_score ≤ a.priority_score)

/-- `dict`-style extension: append `v` to the list stored under `k`, placing a
new key at the end (Python's insertion-ordered `defaultdict(list).extend`). -/
def extendAssoc [DecidableEq κ] (m : List (κ × List α)) (k : κ) (v : List α) :
    List (κ × List α) :=
  match m with
  | [] => [(k, v)]
  | p :: rest => if p.1 = k then (p.1, p.2 ++ v) :: rest
                 else p :: extendAssoc rest k v

/-- The `all_nodes` accumulation loop: per chunk, per entity name, extend with
that chunk's mentions sorted by `(priority, -weight)`. -/
def aggregate_nodes (chunk_results : List ChunkResult) :
    List (String × List EntityMention) :=
  chunk_results.foldl
    (fun m c => c.nodes.foldl
      (fun m p => extendAssoc m p.1 (pySorted entity_le p.2)) m) []

/-- The `all_edges` accumulation loop: per chunk, per ordered key, extend with
that chunk's mentions sorted by descending `priority_score`. -/
def aggregate_edges (chunk_results : List ChunkResult) :
    List ((String × String) × List RelMention) :=
  chunk_results.foldl
    (fun m c => c.edges.foldl
      (fun m p => extendAssoc m p.1 (pySorted edge_le p.2)) m) []

/-- `min(e.get('priority', 999) for e in entities)`; the Python generator
requires a nonempty list (an empty candidate list never occurs in a
well-formed batch), so the `[]` value here is immaterial. -/
def min_priority : List EntityMention → Nat
  | [] => 999
  | e :: es => es.foldl (fun a x => min a x.priority) e.priority

/-- `max(e.get('priority_score', 0) for e in edges)`; nonempty in any
well-formed batch, so the `[]` value here is immaterial. -/
def max_score : List RelMention → ℚ
  | [] => 0
  | e :: es => es.foldl (fun a x => max a x.priority_score) e.priority_score

/-- Order of `priority_sorted_nodes`: ascending minimum mention priority. -/
def node_order_le (a b : String × List EntityMention) : Bool :=
  decide (min_priority a.2 ≤ min_priority b.2)

/-- Order of `priority_sorted_edges`: descending maximum priority score. -/
def edge_key_le (a b : (String × String) × List RelMention) : Bool :=
  decide (max_score b.2 ≤ max_score a.2)

/-- Sort key of the description pass of `_merge_entities_by_priority`:
`key=lambda x: x.get('priority', 999)`. -/
def tier_le (a b : EntityMention) : Bool :=
  decide (a.priority ≤ b.priority)

/-- `_merge_entities_by_priority`: base mention = first mention of minimal
priority (`min(entities, key=...)`); its description is replaced by the
join of all nonempty descriptions in stable ascending-priority order.
The Python function returns the empty dict `{}` on an empty list; that case
is modelled by `none`. -/
def _merge_entities_by_priority : List EntityMention → Option EntityMention
  | [] => none
  | e :: es =>
    some { pyMinBy (fun x => x.priority) e es with
      description := String.intercalate " | "
        (((pySorted tier_le (e :: es)).map
          (fun x => x.description)).filter (fun s => s ≠ "")) }

/-- `_merge_relationships_by_priority`: base mention = first mention of
maximal priority score (`max(edges, key=...)`); its weight is replaced by
the maximum weight over all mentions.  Empty list (`{}` in Python) is
modelled by `none`. -/
def _merge_relationships_by_priority : List RelMention → Option RelMention
  | [] => none
  | e :: es =>
    some { pyMaxBy (fun x => x.priority_score) e es with
      weight := es.foldl (fun a x => max a x.weight) e.weight }

/-- `priority_sorted_nodes`. -/
def sorted_nodes (chunk_results : List ChunkResult) :
    List (String × List EntityMention) :=
  pySorted node_order_le (aggregate_nodes chunk_results)

/-- `relationships_data` as computed by (every iteration of) the entity loop:
merge each aggregated edge entry in `priority_sorted_edges` order.  The
`filterMap` drops the `{}` produced for an empty mention list, which
`_process_merged_data` would skip anyway (no `src_id`). -/
def relationships_data (chunk_results : List ChunkResult) : List RelMention :=
  (pySorted edge_key_le (aggregate_edges chunk_results)).filterMap
    (fun p => _merge_relationships_by_priority p.2)

/-- The final contents of `entities_data`: one merged entity per aggregated
name, in `priority_sorted_nodes` order.  The `filterMap` drops the `{}`
produced for an empty mention list, which `_process_merged_data` would skip
anyway (no `entity_name`). -/
def entities_data (chunk_results : List ChunkResult) : List EntityMention :=
  (sorted_nodes chunk_results).filterMap
    (fun p => _merge_entities_by_priority p.2)

/-- The sequence of `_process_merged_data` invocations made by
`merge_nodes_and_edges_with_priority`: the `await` sits inside the
`for entity_name, entities in priority_sorted_nodes` loop, so iteration `i`
hands over the first `i+1` merged entities together with the (identically
recomputed) full merged relationship list. -/
def merge_handoffs (chunk_results : List ChunkResult) :
    List (List EntityMention × List RelMention) :=
  (List.range (sorted_nodes chunk_results).length).map (fun i =>
    (((sorted_nodes chunk_results).take (i + 1)).filterMap
        (fun p => _merge_entities_by_priority p.2),
     relationships_data chunk_results))

/-- The whole per-batch pipeline normalize → aggregate → merge, as the pure
function from the ordered chunk-result list to the canonical entity and
relationship lists. -/
def full_pipeline (chunk_results : List ChunkResult) :
    List EntityMention × List RelMention :=
  (entities_data (chunk_results.map normalize_chunk),
   relationships_data (chunk_results.map normalize_chunk))

/-! ## Key bookkeeping used to state how many merged records a batch yields -/

/-- Append a key unless already present (how a Python dict acquires keys). -/
def insert_new [DecidableEq κ] (acc : List κ) (k : κ) : List κ :=
  if k ∈ acc then acc else acc ++ [k]

/-- The distinct keys of a key sequence, in first-occurrence order. -/
def first_occurrences [DecidableEq κ] (ks : List κ) : List κ :=
  ks.foldl insert_new []

/-- All relationship keys of a batch, ordered as aggregation visits them. -/
def all_edge_keys (chunk_results : List ChunkResult) : List (String × String) :=
  (chunk_results.map (fun c => c.edges.map (fun p => p.1))).flatten

/-! ## Concrete inputs used by the claim theorems -/

/-- Entity mention builder (name, type, description, priority, weight). -/
def nm (n t d : String) (p : Nat) (w : ℚ) : EntityMention :=
  ⟨n, t, d, "s", "f", p, w⟩

/-- Relationship mention builder (endpoints, weight, priority score). -/
def rm (s t : String) (w ps : ℚ) : RelMention :=
  ⟨s, t, w, "d", "k", "s", "f", ps⟩

/-- The §8 example chunk: entities M1 (device, 设备) and overheat (cause,
原因), one relationship of original weight 1.0. -/
def c5chunk : ChunkResult :=
  ⟨[("M1", [nm "M1" "设备" "dm" 0 0]), ("overheat", [nm "overheat" "原因" "do" 0 0])],
   [(("M1", "overheat"), [rm "M1" "overheat" 1 0])]⟩

/-- A batch of one chunk with two distinct entity names and one relationship. -/
def c1ex : List ChunkResult :=
  [⟨[("A", [nm "A" "设备" "da" 1 10]), ("B", [nm "B" "故障" "db" 1 9])],
    [(("A", "B"), [rm "A" "B" 1 8])]⟩]

/-- A batch containing relationship mentions keyed both ("a","b") and
("b","a"). -/
def c9ex : List ChunkResult :=
  [⟨[("a", [nm "a" "设备" "da" 1 10]), ("b", [nm "b" "故障" "db" 1 9])],
    [(("a", "b"), [rm "a" "b" (1/2) 8]), (("b", "a"), [rm "b" "a" (3/4) 8])]⟩]

/-- Relationship mention with weight 0.4 and priority score 8. -/
def c2m1 : RelMention := rm "a" "b" (2/5) 8

/-- Relationship mention with weight 0.9 and priority score 3. -/
def c2m2 : RelMention := rm "a" "b" (9/10) 3

/-- Entity mention with tier 1 and description "A". -/
def c3m1 : EntityMention := nm "E" "设备" "A" 1 10

/-- Entity mention with tier 2 and description "B". -/
def c3m2 : EntityMention := nm "E" "原因" "B" 2 7

/-! ## Properties of the Python `min`/`max`/`sorted` models -/

theorem pyMaxBy_cons (f : α → β) [LinearOrder β] (e x : α) (es : List α) :
    pyMaxBy f e (x :: es) = pyMaxBy f (if f e < f x then x else e) es := rfl

theorem pyMinBy_cons (f : α → β) [LinearOrder β] (e x : α) (es : List α) :
    pyMinBy f e (x :: es) = pyMinBy f (if f x < f e then x else e) es := rfl

/-- `pyMaxBy` returns the first element attaining the maximal key: the input
splits around it, everything before it has a strictly smaller key, and it
bounds every key. -/
theorem pyMaxBy_decomp (f : α → β) [LinearOrder β] (es : List α) (e : α) :
    ∃ l₁ l₂, e :: es = l₁ ++ pyMaxBy f e es :: l₂ ∧
      (∀ x ∈ l₁, f x < f (pyMaxBy f e es)) ∧
      (∀ x ∈ e :: es, f x ≤ f (pyMaxBy f e es)) := by
  induction es generalizing e with
  | nil =>
      refine ⟨[], [], rfl, by simp, ?_⟩
      intro x hx
      rw [List.mem_singleton] at hx
      subst hx
      exact le_refl _
  | cons x es ih =>
      rw [pyMaxBy_cons]
      by_cases h : f e < f x
      · rw [if_pos h]
        obtain ⟨l₁, l₂, heq, hlt, hle⟩ := ih x
        have hx : f e < f (pyMaxBy f x es) :=
          lt_of_lt_of_le h (hle x (List.mem_cons_self x es))
        refine ⟨e :: l₁, l₂, ?_, ?_, ?_⟩
        · rw [List.cons_append, ← heq]
        · intro y hy
          rcases List.mem_cons.mp hy with rfl | hy
          · exact hx
          · exact hlt y hy
        · intro y hy
          rcases List.mem_cons.mp hy with rfl | hy
          · exact le_of_lt hx
          · exact hle y hy
      · rw [if_neg h]
        have hxe : f x ≤ f e := le_of_not_lt h
        obtain ⟨l₁, l₂, heq, hlt, hle⟩ := ih e
        cases l₁ with
        | nil =>
            rw [List.nil_append] at heq
            injection heq with h1 h2
            refine ⟨[], x :: es, ?_, by simp, ?_⟩
            · rw [List.nil_append, ← h1]
            · intro y hy
              rcases List.mem_cons.mp hy with rfl | hy
              · rw [← h1]
              · rcases List.mem_cons.mp hy with rfl | hy
                · rw [← h1]; exact hxe
                · exact hle y (List.mem_cons_of_mem e (h2 ▸ hy))
        | cons a l₁' =>
            rw [List.cons_append] at heq
            injection heq with h1 h2
            have hea : f e < f (pyMaxBy f e es) := by
              have := hlt a (List.mem_cons_self a l₁')
              rw [← h1] at this
              exact this
            refine ⟨e :: x :: l₁', l₂, ?_, ?_, ?_⟩
            · rw [List.cons_append, List.cons_append, ← h2]
            · intro y hy
              rcases List.mem_cons.mp hy with rfl | hy
              · exact hea
              · rcases List.mem_cons.mp hy with rfl | hy
                · exact lt_of_le_of_lt hxe hea
                · exact hlt y (h1 ▸ List.mem_cons_of_mem a hy)
            · intro y hy
              rcases List.mem_cons.mp hy with rfl | hy
              · exact le_of_lt hea
              · rcases List.mem_cons.mp hy with rfl | hy
                · exact le_trans hxe (le_of_lt hea)
                · exact hle y (List.mem_cons_of_mem e hy)

/-- `pyMinBy` returns the first element attaining the minimal key. -/
theorem pyMinBy_decomp (f : α → β) [LinearOrder β] (es : List α) (e : α) :
    ∃ l₁ l₂, e :: es = l₁ ++ pyMinBy f e es :: l₂ ∧
      (∀ x ∈ l₁, f (pyMinBy f e es) < f x) ∧
      (∀ x ∈ e :: es, f (pyMinBy f e es) ≤ f x) := by
  induction es generalizing e with
  | nil =>
      refine ⟨[], [], rfl, by simp, ?_⟩
      intro x hx
      rw [List.mem_singleton] at hx
      subst hx
      exact le_refl _
  | cons x es ih =>
      rw [pyMinBy_cons]
      by_cases h : f x < f e
      · rw [if_pos h]
        obtain ⟨l₁, l₂, heq, hlt, hle⟩ := ih x
        have hx : f (pyMinBy f x es) < f e :=
          lt_of_le_of_lt (hle x (List.mem_cons_self x es)) h
        refine ⟨e :: l₁, l₂, ?_, ?_, ?_⟩
        · rw [List.cons_append, ← heq]
        · intro y hy
          rcases List.mem_cons.mp hy with rfl | hy
          · exact hx
          · exact hlt y hy
        · intro y hy
          rcases List.mem_cons.mp hy with rfl | hy
          · exact le_of_lt hx
          · exact hle y hy
      · rw [if_neg h]
        have hex : f e ≤ f x := le_of_not_lt h
        obtain ⟨l₁, l₂, heq, hlt, hle⟩ := ih e
        cases l₁ with
        | nil =>
            rw [List.nil_append] at heq
            injection heq with h1 h2
            refine ⟨[], x :: es, ?_, by simp, ?_⟩
            · rw [List.nil_append, ← h1]
            · intro y hy
              rcases List.mem_cons.mp hy with rfl | hy
              · rw [← h1]
              · rcases List.mem_cons.mp hy with rfl | hy
                · rw [← h1]; exact hex
                · exact hle y (List.mem_cons_of_mem e (h2 ▸ hy))
        | cons a l₁' =>
            rw [List.cons_append] at heq
            injection heq with h1 h2
            have hea : f (pyMinBy f e es) < f e := by
              have := hlt a (List.mem_cons_self a l₁')
              rw [← h1] at this
              exact this
            refine ⟨e :: x :: l₁', l₂, ?_, ?_, ?_⟩
            · rw [List.cons_append, List.cons_append, ← h2]
            · intro y hy
              rcases List.mem_cons.mp hy with rfl | hy
              · exact hea
              · rcases List.mem_cons.mp hy with rfl | hy
                · exact lt_of_lt_of_le hea hex
                · exact hlt y (h1 ▸ List.mem_cons_of_mem a hy)
            · intro y hy
              rcases List.mem_cons.mp hy with rfl | hy
              · exact le_of_lt hea
              · rcases List.mem_cons.mp hy with rfl | hy
                · exact le_trans (le_of_lt hea) hex
                · exact hle y (List.mem_cons_of_mem e hy)

/-- The initial value bounds a left fold of `max`. -/
theorem le_foldl_max (l : List ℚ) (a : ℚ) : a ≤ l.foldl max a := by
  induction l generalizing a with
  | nil => exact le_refl a
  | cons b l ih => exact le_trans (le_max_left a b) (ih (max a b))

/-- Every member bounds below a left fold of `max`. -/
theorem mem_le_foldl_max (l : List ℚ) (a : ℚ) : ∀ x ∈ l, x ≤ l.foldl max a := by
  induction l generalizing a with
  | nil => intro x hx; exact absurd hx (List.not_mem_nil x)
  | cons b l ih =>
      intro x hx
      rcases List.mem_cons.mp hx with rfl | hx
      · exact le_trans (le_max_right a x) (le_foldl_max l (max a x))
      · exact ih (max a b) x hx

/-- A left fold of `max` is attained: it is the initial value or a member. -/
theorem foldl_max_mem (l : List ℚ) (a : ℚ) : l.foldl max a = a ∨ l.foldl max a ∈ l := by
  induction l generalizing a with
  | nil => left; rfl
  | cons b l ih =>
      rcases ih (max a b) with h | h
      · rcases max_choice a b with hm | hm
        · left; rw [List.foldl_cons, h, hm]
        · right; rw [List.foldl_cons, h, hm]; exact List.mem_cons_self b l
      · right; exact List.mem_cons_of_mem b h

/-- Inserting into the sorted accumulator is a permutation of consing. -/
theorem insertSorted_perm (le : α → α → Bool) (x : α) :
    ∀ l : List α, (insertSorted le x l).Perm (x :: l) := by
  intro l
  induction l with
  | nil => exact List.Perm.refl _
  | cons y ys ih =>
      unfold insertSorted
      by_cases h : le x y
      · rw [if_pos h]
      · rw [if_neg h]
        exact List.Perm.trans (List.Perm.cons y ih) (List.Perm.swap x y ys)

/-- `pySorted` permutes its input. -/
theorem pySorted_perm (le : α → α → Bool) (l : List α) : (pySorted le l).Perm l := by
  induction l with
  | nil => exact List.Perm.refl _
  | cons a l ih =>
      exact List.Perm.trans (insertSorted_perm le a (pySorted le l)) (List.Perm.cons a ih)

/-- Inserting into a priority-sorted list keeps it priority-sorted. -/
theorem insertSorted_sorted_tier (x : EntityMention) (l : List EntityMention)
    (h : l.Sorted (fun a b => a.priority ≤ b.priority)) :
    (insertSorted tier_le x l).Sorted (fun a b => a.priority ≤ b.priority) := by
  induction l with
  | nil => simp [insertSorted]
  | cons y ys ih =>
      rw [List.sorted_cons] at h
      unfold insertSorted
      by_cases hxy : tier_le x y
      · rw [if_pos hxy]
        have hx : x.priority ≤ y.priority := of_decide_eq_true hxy
        rw [List.sorted_cons]
        refine ⟨?_, List.sorted_cons.mpr h⟩
        intro b hb
        rcases List.mem_cons.mp hb with rfl | hb
        · exact hx
        · exact le_trans hx (h.1 b hb)
      · rw [if_neg hxy]
        have hyx : y.priority ≤ x.priority :=
          le_of_not_le (fun hc => hxy (decide_eq_true hc))
        rw [List.sorted_cons]
        refine ⟨?_, ih h.2⟩
        intro b hb
        have hb' : b ∈ x :: ys := (insertSorted_perm tier_le x ys).mem_iff.mp hb
        rcases List.mem_cons.mp hb' with rfl | hb''
        · exact hyx
        · exact h.1 b hb''

/-- `pySorted tier_le` produces a priority-sorted list. -/
theorem pySorted_sorted_tier (l : List EntityMention) :
    (pySorted tier_le l).Sorted (fun a b => a.priority ≤ b.priority) := by
  induction l with
  | nil => simp [pySorted]
  | cons a l ih => exact insertSorted_sorted_tier a (pySorted tier_le l) ih

/-! ## Aggregation bookkeeping lemmas -/

/-- `pySorted` preserves length. -/
theorem pySorted_length (le : α → α → Bool) (l : List α) :
    (pySorted le l).length = l.length :=
  (pySorted_perm le l).length_eq

/-- `pySorted` preserves nonemptiness. -/
theorem pySorted_ne_nil (le : α → α → Bool) (l : List α) (h : l ≠ []) :
    pySorted le l ≠ [] := by
  intro hc
  apply h
  have hlen := pySorted_length le l
  rw [hc] at hlen
  exact List.eq_nil_of_length_eq_zero hlen.symm

/-- Extending an association list adds the key iff it is new. -/
theorem keys_extendAssoc [DecidableEq κ] (m : List (κ × List α)) (k : κ) (v : List α) :
    (extendAssoc m k v).map (fun p => p.1) = insert_new (m.map (fun p => p.1)) k := by
  induction m with
  | nil => simp [extendAssoc, insert_new]
  | cons q rest ih =>
      by_cases h : q.1 = k
      · subst h
        simp [extendAssoc, insert_new]
      · have hstep : extendAssoc (q :: rest) k v = q :: extendAssoc rest k v := by
          simp [extendAssoc, h]
        rw [hstep, List.map_cons, ih, List.map_cons]
        simp only [insert_new, List.mem_cons]
        by_cases h2 : k ∈ rest.map (fun p => p.1)
        · rw [if_pos h2, if_pos (Or.inr h2)]
        · rw [if_neg h2, if_neg (fun hc => hc.elim (fun h3 => h h3.symm) h2)]
          simp

/-- Extending with a nonempty value list keeps all value lists nonempty. -/
theorem extendAssoc_vals_ne_nil [DecidableEq κ] (k : κ) (v : List α) :
    ∀ (m : List (κ × List α)), (∀ p ∈ m, p.2 ≠ []) → v ≠ [] →
      ∀ p ∈ extendAssoc m k v, p.2 ≠ [] := by
  intro m
  induction m with
  | nil =>
      intro _ hv p hp
      simp only [extendAssoc, List.mem_singleton] at hp
      rw [hp]
      exact hv
  | cons q rest ih =>
      intro hm hv p hp
      by_cases h : q.1 = k
      · rw [show extendAssoc (q :: rest) k v = (q.1, q.2 ++ v) :: rest from by
          simp [extendAssoc, h]] at hp
        rcases List.mem_cons.mp hp with rfl | hp'
        · intro hc
          exact hv (List.append_eq_nil.mp hc).2
        · exact hm p (List.mem_cons_of_mem q hp')
      · rw [show extendAssoc (q :: rest) k v = q :: extendAssoc rest k v from by
          simp [extendAssoc, h]] at hp
        rcases List.mem_cons.mp hp with rfl | hp'
        · exact hm p (List.mem_cons_self p rest)
        · exact ih (fun r hr => hm r (List.mem_cons_of_mem q hr)) hv p hp'

/-- Keys of a per-chunk edge-accumulation fold. -/
theorem keys_fold_edges (entries : List ((String × String) × List RelMention)) :
    ∀ m, (entries.foldl (fun m p => extendAssoc m p.1 (pySorted edge_le p.2)) m).map
        (fun p => p.1) =
      (entries.map (fun p => p.1)).foldl insert_new (m.map (fun p => p.1)) := by
  induction entries with
  | nil => intro m; rfl
  | cons p rest ih =>
      intro m
      rw [List.foldl_cons, ih, List.map_cons, List.foldl_cons, keys_extendAssoc]

/-- The aggregated edge dict has exactly the batch's distinct ordered keys, in
first-occurrence order. -/
theorem keys_aggregate_edges (chunk_results : List ChunkResult) :
    (aggregate_edges chunk_results).map (fun p => p.1) =
      first_occurrences (all_edge_keys chunk_results) := by
  suffices hs : ∀ (m : List ((String × String) × List RelMention)),
      (chunk_results.foldl (fun m c => c.edges.foldl
          (fun m p => extendAssoc m p.1 (pySorted edge_le p.2)) m) m).map
        (fun p => p.1) =
        (all_edge_keys chunk_results).foldl insert_new (m.map (fun p => p.1)) by
    exact hs []
  induction chunk_results with
  | nil => intro m; rfl
  | cons c rest ih =>
      intro m
      rw [List.foldl_cons, ih, keys_fold_edges,
        show all_edge_keys (c :: rest) =
          c.edges.map (fun p => p.1) ++ all_edge_keys rest from by
            simp [all_edge_keys],
        List.foldl_append]

/-- Value lists stay nonempty through a per-chunk edge-accumulation fold. -/
theorem fold_edges_vals_ne_nil (entries : List ((String × String) × List RelMention)) :
    ∀ m, (∀ p ∈ m, p.2 ≠ []) → (∀ p ∈ entries, p.2 ≠ []) →
      ∀ p ∈ entries.foldl (fun m p => extendAssoc m p.1 (pySorted edge_le p.2)) m,
        p.2 ≠ [] := by
  induction entries with
  | nil => intro m hm _ p hp; exact hm p hp
  | cons q rest ih =>
      intro m hm hent p hp
      rw [List.foldl_cons] at hp
      exact ih (extendAssoc m q.1 (pySorted edge_le q.2))
        (extendAssoc_vals_ne_nil q.1 (pySorted edge_le q.2) m hm
          (pySorted_ne_nil edge_le q.2 (hent q (List.mem_cons_self q rest))))
        (fun r hr => hent r (List.mem_cons_of_mem q hr)) p hp

/-- Value lists of the aggregated edge dict are nonempty when every input
mention list is. -/
theorem aggregate_edges_vals_ne_nil :
    ∀ (chunk_results : List ChunkResult)
      (m : List ((String × String) × List RelMention)),
      (∀ p ∈ m, p.2 ≠ []) → (∀ c ∈ chunk_results, ∀ p ∈ c.edges, p.2 ≠ []) →
      ∀ p ∈ chunk_results.foldl (fun m c => c.edges.foldl
          (fun m p => extendAssoc m p.1 (pySorted edge_le p.2)) m) m, p.2 ≠ [] := by
  intro chunk_results
  induction chunk_results with
  | nil => intro m hm _ p hp; exact hm p hp
  | cons c rest ih =>
      intro m hm hcrs p hp
      rw [List.foldl_cons] at hp
      exact ih _ (fold_edges_vals_ne_nil c.edges m hm (hcrs c (List.mem_cons_self c rest)))
        (fun c' hc' q hq => hcrs c' (List.mem_cons_of_mem c hc') q hq) p hp

/-- Merging a dict whose value lists are all nonempty yields one canonical
record per entry. -/
theorem length_filterMap_merge (L : List ((String × String) × List RelMention))
    (h : ∀ p ∈ L, p.2 ≠ []) :
    (L.filterMap (fun p => _merge_relationships_by_priority p.2)).length = L.length := by
  induction L with
  | nil => rfl
  | cons p rest ih =>
      rcases List.exists_cons_of_ne_nil (h p (List.mem_cons_self p rest)) with ⟨e, es, hpe⟩
      have hx : _merge_relationships_by_priority p.2 =
          some { pyMaxBy (fun x => x.priority_score) e es with
            weight := es.foldl (fun a x => max a x.weight) e.weight } := by
        rw [hpe]
        rfl
      simp only [List.filterMap_cons, hx, List.length_cons]
      rw [ih (fun q hq => h q (List.mem_cons_of_mem p hq))]

/-! ## Properties of the normalization filter -/

/-- A key appears in a normalized chunk's edge dict exactly when it appears in
the raw chunk's edge dict and its resolved endpoint types pass the
admission test. -/
theorem mem_normalize_edges_iff (c : ChunkResult) (k : String × String) :
    (∃ es, (k, es) ∈ (normalize_chunk c).edges) ↔
      ((∃ es, (k, es) ∈ c.edges) ∧
        should_create_relationship (_get_entity_type k.1 (weight_nodes c.nodes))
          (_get_entity_type k.2 (weight_nodes c.nodes)) = true) := by
  constructor
  · rintro ⟨es, hes⟩
    simp only [normalize_chunk, List.mem_filterMap] at hes
    obtain ⟨p, hp, hsome⟩ := hes
    split_ifs at hsome with hc
    have hk := congrArg Prod.fst (Option.some.inj hsome)
    simp only at hk
    subst hk
    exact ⟨⟨p.2, by simpa using hp⟩, hc⟩
  · rintro ⟨⟨es, hes⟩, hc⟩
    refine ⟨es.map (adjust_edge (_get_entity_type k.1 (weight_nodes c.nodes))
      (_get_entity_type k.2 (weight_nodes c.nodes))), ?_⟩
    simp only [normalize_chunk, List.mem_filterMap]
    exact ⟨(k, es), hes, by rw [if_pos hc]⟩

/-- Every entity type maps to one of the configured tiers 1-4 or to the
unknown-type sentinel 999. -/
theorem get_entity_priority_range (t : String) :
    get_entity_priority t = 1 ∨ get_entity_priority t = 2 ∨
    get_entity_priority t = 3 ∨ get_entity_priority t = 4 ∨
    get_entity_priority t = 999 := by
  simp only [get_entity_priority, priority_config, lookup_priority]
  split_ifs <;> simp

/-- Against an unregistered (empty-string) endpoint type, the admission test
passes exactly for another tier-999 type. -/
theorem scr_empty_iff (t : String) :
    should_create_relationship "" t = true ↔ get_entity_priority t = 999 := by
  have h0 : get_entity_priority "" = 999 := by decide
  simp only [should_create_relationship, h0, decide_eq_true_eq]
  rcases get_entity_priority_range t with h | h | h | h | h <;> rw [h] <;> decide

/-- `find?` on an association list returns the first entry with the key. -/
theorem find?_first_key (n : String) (v : List EntityMention) :
    ∀ (rest1 rest2 : List (String × List EntityMention)),
      (∀ q ∈ rest1, q.1 ≠ n) →
      (rest1 ++ (n, v) :: rest2).find? (fun p => p.1 == n) = some (n, v) := by
  intro rest1
  induction rest1 with
  | nil =>
      intro rest2 _
      rw [List.nil_append, List.find?_cons_of_pos _ (by simp)]
  | cons q qs ih =>
      intro rest2 h
      rw [List.cons_append,
        List.find?_cons_of_neg _ (by simpa using h q (List.mem_cons_self q qs))]
      exact ih rest2 (fun p hp => h p (List.mem_cons_of_mem q hp))

/-! ## Claim theorems -/

/-- C1: the claim says the merge stage hands canonical data to GraphSink in a
single handoff per batch (two upsert passes plus two vector upserts).  The
code instead calls `_process_merged_data` inside the per-entity loop: on a
batch with two unique entity names it performs two handoffs, the first of
which carries only the first canonical entity (together with the full
relationship list).  This theorem evaluates the code at that failing input:
the handoff sequence has two elements with entity-list lengths 1 and 2. -/
theorem claim_C1 :
    (merge_handoffs c1ex).map (fun h => (h.1.length, h.2.length)) = [(1, 1), (2, 1)] := by
  decide

/-- C2: for every nonempty mention list sharing one relationship key, the
merged canonical relationship takes all base attributes from the first
mention attaining the numerically highest priority score (every earlier
mention scores strictly lower), while its weight is the maximum weight over
all mentions (an upper bound that is attained); e.g. mentions with weights
{0.4, 0.9} and priority scores {8, 3} yield the score-8 mention's base
fields with weight 0.9. -/
theorem claim_C2 :
    (∀ (e : RelMention) (es : List RelMention),
      ∃ b r, _merge_relationships_by_priority (e :: es) = some r ∧
        (∃ l₁ l₂, e :: es = l₁ ++ b :: l₂ ∧
          (∀ x ∈ l₁, x.priority_score < b.priority_score) ∧
          (∀ x ∈ e :: es, x.priority_score ≤ b.priority_score)) ∧
        r.src_id = b.src_id ∧ r.tgt_id = b.tgt_id ∧ r.description = b.description ∧
        r.keywords = b.keywords ∧ r.source_id = b.source_id ∧
        r.file_path = b.file_path ∧ r.priority_score = b.priority_score ∧
        (∀ x ∈ e :: es, x.weight ≤ r.weight) ∧
        (∃ x ∈ e :: es, x.weight = r.weight)) ∧
    _merge_relationships_by_priority [c2m1, c2m2] =
      some { c2m1 with weight := 9/10 } := by
  constructor
  · intro e es
    refine ⟨pyMaxBy (fun x => x.priority_score) e es, _, rfl,
      pyMaxBy_decomp (fun x => x.priority_score) es e,
      rfl, rfl, rfl, rfl, rfl, rfl, rfl, ?_, ?_⟩
    · have hfold : (es.map (fun y => y.weight)).foldl max e.weight =
          es.foldl (fun a y => max a y.weight) e.weight := List.foldl_map _ _ _ _
      intro x hx
      rcases List.mem_cons.mp hx with rfl | hx
      · calc x.weight ≤ (es.map (fun y => y.weight)).foldl max x.weight :=
              le_foldl_max _ _
          _ = es.foldl (fun a y => max a y.weight) x.weight := hfold
      · calc x.weight ≤ (es.map (fun y => y.weight)).foldl max e.weight :=
              mem_le_foldl_max _ _ x.weight (List.mem_map_of_mem _ hx)
          _ = es.foldl (fun a y => max a y.weight) e.weight := hfold
    · have hfold : (es.map (fun y => y.weight)).foldl max e.weight =
          es.foldl (fun a y => max a y.weight) e.weight := List.foldl_map _ _ _ _
      rcases foldl_max_mem (es.map (fun y => y.weight)) e.weight with h | h
      · exact ⟨e, List.mem_cons_self e es, by rw [← hfold, h]⟩
      · obtain ⟨y, hy, hyw⟩ := List.mem_map.mp h
        exact ⟨y, List.mem_cons_of_mem e hy, by rw [← hfold, hyw]⟩
  · norm_num [_merge_relationships_by_priority, pyMaxBy, c2m1, c2m2, rm, max_def]

/-- Witness for C2: the general statement instantiated at the two-mention
example list. -/
theorem claim_C2_witness :
    ∃ b r, _merge_relationships_by_priority [c2m1, c2m2] = some r ∧
      (∃ l₁ l₂, [c2m1, c2m2] = l₁ ++ b :: l₂ ∧
        (∀ x ∈ l₁, x.priority_score < b.priority_score) ∧
        (∀ x ∈ [c2m1, c2m2], x.priority_score ≤ b.priority_score)) ∧
      r.src_id = b.src_id ∧ r.tgt_id = b.tgt_id ∧ r.description = b.description ∧
      r.keywords = b.keywords ∧ r.source_id = b.source_id ∧
      r.file_path = b.file_path ∧ r.priority_score = b.priority_score ∧
      (∀ x ∈ [c2m1, c2m2], x.weight ≤ r.weight) ∧
      (∃ x ∈ [c2m1, c2m2], x.weight = r.weight) :=
  claim_C2.1 c2m1 [c2m2]

/-- C3: for every nonempty mention list sharing one entity name, the merged
canonical entity takes its base attributes from the first mention attaining
the numerically lowest tier (every earlier mention has a strictly greater
tier), and its description is the " | "-join of the nonempty descriptions
taken in an ascending-tier reordering of the whole list (duplicates kept);
e.g. mentions with tiers {1, 2} and descriptions {"A", "B"} yield
description "A | B" on the tier-1 mention's base fields. -/
theorem claim_C3 :
    (∀ (e : EntityMention) (es : List EntityMention),
      ∃ b r, _merge_entities_by_priority (e :: es) = some r ∧
        (∃ l₁ l₂, e :: es = l₁ ++ b :: l₂ ∧
          (∀ x ∈ l₁, b.priority < x.priority) ∧
          (∀ x ∈ e :: es, b.priority ≤ x.priority)) ∧
        r.entity_name = b.entity_name ∧ r.entity_type = b.entity_type ∧
        r.source_id = b.source_id ∧ r.file_path = b.file_path ∧
        r.priority = b.priority ∧ r.weight = b.weight ∧
        (∃ sl : List EntityMention, sl.Perm (e :: es) ∧
          sl.Sorted (fun a c => a.priority ≤ c.priority) ∧
          r.description = String.intercalate " | "
            ((sl.map (fun x => x.description)).filter (fun s => s ≠ "")))) ∧
    _merge_entities_by_priority [c3m1, c3m2] =
      some { c3m1 with description := "A | B" } := by
  constructor
  · intro e es
    refine ⟨pyMinBy (fun x => x.priority) e es, _, rfl,
      pyMinBy_decomp (fun x => x.priority) es e,
      rfl, rfl, rfl, rfl, rfl, rfl,
      pySorted tier_le (e :: es), pySorted_perm tier_le (e :: es),
      pySorted_sorted_tier (e :: es), rfl⟩
  · decide

/-- Witness for C3: the general statement instantiated at the two-mention
example list. -/
theorem claim_C3_witness :
    ∃ b r, _merge_entities_by_priority [c3m1, c3m2] = some r ∧
      (∃ l₁ l₂, [c3m1, c3m2] = l₁ ++ b :: l₂ ∧
        (∀ x ∈ l₁, b.priority < x.priority) ∧
        (∀ x ∈ [c3m1, c3m2], b.priority ≤ x.priority)) ∧
      r.entity_name = b.entity_name ∧ r.entity_type = b.entity_type ∧
      r.source_id = b.source_id ∧ r.file_path = b.file_path ∧
      r.priority = b.priority ∧ r.weight = b.weight ∧
      (∃ sl : List EntityMention, sl.Perm [c3m1, c3m2] ∧
        sl.Sorted (fun a c => a.priority ≤ c.priority) ∧
        r.description = String.intercalate " | "
          ((sl.map (fun x => x.description)).filter (fun s => s ≠ ""))) :=
  claim_C3.1 c3m1 [c3m2]

/-- C5: for every admitted relationship mention the recomputed weight is
`baseWeight * ((weightA + weightB) / 2) / 10` and the priority score is
`(weightA + weightB) / 2`; with the registry weights 设备 (device) = 10 and
原因 (cause) = 7, the M1–overheat relationship of original weight 1.0 comes
out of normalization with priority score 8.5 = 17/2 and weight 0.85 = 17/20. -/
theorem claim_C5 :
    (∀ (s t : String) (b : ℚ), calculate_relationship_weight s t b =
      b * ((get_entity_weight s + get_entity_weight t) / 2) / 10) ∧
    (∀ (s t : String) (e : RelMention),
      (adjust_edge s t e).weight =
        e.weight * ((get_entity_weight s + get_entity_weight t) / 2) / 10 ∧
      (adjust_edge s t e).priority_score =
        (get_entity_weight s + get_entity_weight t) / 2) ∧
    get_entity_weight "设备" = 10 ∧ get_entity_weight "原因" = 7 ∧
    (normalize_chunk c5chunk).edges.map
        (fun p => p.2.map (fun e => (e.priority_score, e.weight))) =
      [[(17/2, 17/20)]] := by
  refine ⟨fun s t b => rfl, fun s t e => ⟨rfl, rfl⟩, by decide, by decide, ?_⟩
  simp [normalize_chunk, c5chunk, weight_nodes, _get_entity_type, adjust_edge,
    calculate_relationship_weight, relationship_weight, get_entity_weight,
    entity_weights, should_create_relationship, get_entity_priority,
    priority_config, lookup_priority, rm, nm, List.find?]
  norm_num

/-- C4: the admission test returns true exactly when the tier difference is
at most 1 (in particular same-tier pairs pass), tier-1 vs tier-4 pairs are
rejected, tier-1 vs tier-2 pairs pass, and normalization keeps a
relationship key if and only if its resolved endpoint types pass the test. -/
theorem claim_C4 :
    (∀ s t : String, should_create_relationship s t = true ↔
      ((get_entity_priority s : Int) - (get_entity_priority t : Int)).natAbs ≤ 1) ∧
    (∀ s t : String, get_entity_priority s = get_entity_priority t →
      should_create_relationship s t = true) ∧
    (∀ s t : String, get_entity_priority s = 1 → get_entity_priority t = 4 →
      should_create_relationship s t = false) ∧
    (∀ s t : String, get_entity_priority s = 1 → get_entity_priority t = 2 →
      should_create_relationship s t = true) ∧
    (∀ (c : ChunkResult) (k : String × String),
      (∃ es, (k, es) ∈ (normalize_chunk c).edges) ↔
        ((∃ es, (k, es) ∈ c.edges) ∧
          should_create_relationship (_get_entity_type k.1 (weight_nodes c.nodes))
            (_get_entity_type k.2 (weight_nodes c.nodes)) = true)) := by
  refine ⟨?_, ?_, ?_, ?_, mem_normalize_edges_iff⟩
  · intro s t
    simp [should_create_relationship]
  · intro s t h
    simp only [should_create_relationship, h, sub_self, Int.natAbs_zero,
      decide_eq_true_eq]
    omega
  · intro s t hs ht
    simp only [should_create_relationship, hs, ht]
    decide
  · intro s t hs ht
    simp only [should_create_relationship, hs, ht]
    decide

/-- Witness for C4: 设备 (tier 1) vs 区域 (tier 4) is rejected, 设备 (tier 1)
vs 原因 (tier 2) passes, and the same-tier pair 人员/人员 passes. -/
theorem claim_C4_witness :
    should_create_relationship "设备" "区域" = false ∧
    should_create_relationship "设备" "原因" = true ∧
    should_create_relationship "人员" "人员" = true := by
  obtain ⟨h1, h2, h3, h4, h5⟩ := claim_C4
  exact ⟨h3 "设备" "区域" (by decide) (by decide),
    h4 "设备" "原因" (by decide) (by decide),
    h2 "人员" "人员" rfl⟩

/-- C6: endpoint types resolve from the first entity mention stored under the
name (the empty string when the name is absent), the empty string maps to
tier 999, admission against an empty-typed endpoint succeeds exactly when
the other endpoint is also tier 999, and a relationship whose source
resolves to the empty string survives normalization iff its target type is
tier 999. -/
theorem claim_C6 :
    (∀ (n : String) (nodes rest1 rest2 : List (String × List EntityMention))
        (e : EntityMention) (es : List EntityMention),
      nodes = rest1 ++ (n, e :: es) :: rest2 → (∀ q ∈ rest1, q.1 ≠ n) →
      _get_entity_type n nodes = e.entity_type) ∧
    (∀ (n : String) (nodes : List (String × List EntityMention)),
      (∀ q ∈ nodes, q.1 ≠ n) → _get_entity_type n nodes = "") ∧
    get_entity_priority "" = 999 ∧
    (∀ t : String, should_create_relationship "" t = true ↔
      get_entity_priority t = 999) ∧
    (∀ (c : ChunkResult) (k : String × String),
      _get_entity_type k.1 (weight_nodes c.nodes) = "" →
      ((∃ es, (k, es) ∈ (normalize_chunk c).edges) ↔
        ((∃ es, (k, es) ∈ c.edges) ∧
          get_entity_priority (_get_entity_type k.2 (weight_nodes c.nodes)) = 999))) := by
  refine ⟨?_, ?_, by decide, scr_empty_iff, ?_⟩
  · intro n nodes rest1 rest2 e es hn hne
    subst hn
    unfold _get_entity_type
    rw [find?_first_key n (e :: es) rest1 rest2 hne]
  · intro n nodes h
    unfold _get_entity_type
    have hnone : nodes.find? (fun p => p.1 == n) = none :=
      List.find?_eq_none.mpr (fun x hx => by simpa using h x hx)
    rw [hnone]
  · intro c k h1
    rw [mem_normalize_edges_iff c k, h1, scr_empty_iff]

/-- Witness for C6: a missing name resolves to the empty type, a present name
resolves to its first mention's type, and the empty type admits exactly
tier-999 partners. -/
theorem claim_C6_witness :
    _get_entity_type "X" [("Y", [c3m1])] = "" ∧
    _get_entity_type "E" [("Y", [c3m2]), ("E", [c3m1, c3m2])] = c3m1.entity_type ∧
    (should_create_relationship "" "未知" = true ↔ get_entity_priority "未知" = 999) := by
  obtain ⟨h1, h2, h3, h4, h5⟩ := claim_C6
  exact ⟨h2 "X" [("Y", [c3m1])] (by decide),
    h1 "E" [("Y", [c3m2]), ("E", [c3m1, c3m2])] [("Y", [c3m2])] [] c3m1 [c3m2]
      rfl (by decide),
    h4 "未知"⟩

/-- C7: the normalize→aggregate→merge pipeline is a pure function of the
ordered chunk-result list, so two runs on identical input produce identical
canonical entity and relationship lists. -/
theorem claim_C7 (a b : List ChunkResult) (h : a = b) :
    full_pipeline a = full_pipeline b := by
  rw [h]

/-- Witness for C7 at a concrete batch. -/
theorem claim_C7_witness : full_pipeline c1ex = full_pipeline c1ex :=
  claim_C7 c1ex c1ex rfl

/-- C8 counterexample: the claim asserts strict monotonicity in the endpoint
weights for *every* fixed base weight, but with base weight 0 the output is
0 on both sides: weights 4 < 10 (the configured 区域 and 设备 weights) give
equal results. -/
theorem claim_C8_counterexample :
    (4 : ℚ) < 10 ∧
    ¬ relationship_weight 4 7 0 < relationship_weight 10 7 0 := by
  constructor
  · norm_num
  · norm_num [relationship_weight]

/-- C8 (amended): for every fixed *positive* base weight, the relationship
weight is strictly increasing in each endpoint weight. -/
theorem claim_C8 (base wB w1 w2 : ℚ) (hbase : 0 < base) (h : w1 < w2) :
    relationship_weight w1 wB base < relationship_weight w2 wB base ∧
    relationship_weight wB w1 base < relationship_weight wB w2 base := by
  unfold relationship_weight
  constructor <;> nlinarith [mul_pos hbase (sub_pos.mpr h)]

/-- Witness for the amended C8 at base weight 1 with weights 4 < 10. -/
theorem claim_C8_witness :
    relationship_weight 4 7 1 < relationship_weight 10 7 1 ∧
    relationship_weight 7 4 1 < relationship_weight 7 10 1 :=
  ⟨(claim_C8 1 7 4 10 (by norm_num) (by norm_num)).1,
   (claim_C8 1 7 4 10 (by norm_num) (by norm_num)).2⟩

/-- C9 counterexample: the claim says mentions keyed (a,b) and (b,a) are
merged into a single canonical relationship for the unordered pair.  The
merge stage keys on the exact ordered tuple, so a batch containing both
orderings produces two canonical relationships. -/
theorem claim_C9_counterexample :
    (relationships_data c9ex).map (fun r => (r.src_id, r.tgt_id)) =
      [("a", "b"), ("b", "a")] ∧
    (relationships_data c9ex).length = 2 := by
  constructor <;> decide

/-- C9 (amended): the merge stage keys relationships by the exact ordered
(source, target) tuple, not the unordered pair: mentions sharing an
identical ordered key are merged into a single canonical relationship, so a
batch yields exactly one canonical relationship per distinct ordered key —
and a batch containing both (a,b) and (b,a) therefore yields two. -/
theorem claim_C9 (chunk_results : List ChunkResult)
    (h : ∀ c ∈ chunk_results, ∀ p ∈ c.edges, p.2 ≠ []) :
    (relationships_data chunk_results).length =
      (first_occurrences (all_edge_keys chunk_results)).length := by
  unfold relationships_data
  rw [length_filterMap_merge]
  · rw [pySorted_length, ← keys_aggregate_edges, List.length_map]
  · intro p hp
    exact aggregate_edges_vals_ne_nil chunk_results [] (by simp) h p
      ((pySorted_perm edge_key_le (aggregate_edges chunk_results)).mem_iff.mp hp)

/-- Witness for the amended C9 on the two-orderings batch: every mention list
is nonempty and the canonical-relationship count equals the distinct
ordered-key count. -/
theorem claim_C9_witness :
    (∀ c ∈ c9ex, ∀ p ∈ c.edges, p.2 ≠ []) ∧
    (relationships_data c9ex).length =
      (first_occurrences (all_edge_keys c9ex)).length :=
  ⟨by decide, claim_C9 c9ex (by decide)⟩

/-- C10: the relationship-admission test is symmetric in its two entity-type
arguments. -/
theorem claim_C10 (s t : String) :
    should_create_relationship s t = should_create_relationship t s := by
  simp only [should_create_relationship, decide_eq_decide]
  omega

end KC
